import Mathlib

/-!
# Eggbot — verification of the ledger, payment pipeline and parsers

A shallow embedding of the eggbot Go program (Buildtall-Systems/eggbot):
the SQLite-backed ledger (`internal/db`), the order state machine
(`internal/fsm/order.go`), the zap processor (`internal/zaps`), the bolt11
amount extraction (`internal/zaps` validator), the command parser
(`internal/commands`), the admin `adjust` command, the high-water-mark
watermark (`internal/db/db.go`) and the control flow of the main event loop
(`internal/cli` run).  Database tables become Lean lists, SQL conditional
updates become guarded pure updates, and fallible operations return
`Except`.
-/

namespace Eggbot

/-! ## Data model (tables from the migrations, structs from internal/db) -/

/-- Order lifecycle states, from the `status` column and `fsm` constants. -/
inductive OrderStatus
  | pending
  | paid
  | fulfilled
  | cancelled
deriving DecidableEq, Repr, Fintype

/-- A row of the `orders` table (columns used by the core logic). -/
structure Order where
  id : Nat
  customerId : Nat
  quantity : Int
  totalSats : Int
  status : OrderStatus
deriving DecidableEq, Repr

/-- A row of the `transactions` table. -/
structure Txn where
  orderId : Option Nat
  zapEventId : String
  amountSats : Int
  senderNpub : String
deriving DecidableEq, Repr

/-- A row of the `customers` table. -/
structure CustomerRow where
  id : Nat
  npub : String
deriving DecidableEq, Repr

/-- The single-writer SQLite database: the singleton `inventory` row plus
the `customers`, `orders` and `transactions` tables.  `nextOrderId` models
the AUTOINCREMENT order primary key. -/
structure Ledger where
  eggsAvailable : Int
  customers : List CustomerRow
  orders : List Order
  txns : List Txn
  nextOrderId : Nat
deriving DecidableEq, Repr

/-- The error kinds of the db package (`ErrInsufficientInventory`, ...);
`uniqueViolation` stands for a SQLite UNIQUE-constraint failure surfaced
by an insert. -/
inductive DBError
  | insufficientInventory
  | customerNotFound
  | orderNotFound
  | orderNotPending
  | invalidStateTransition
  | uniqueViolation
deriving DecidableEq, Repr

/-! ## Order state machine (internal/fsm/order.go) -/

/-- The three order FSM events (`pay`, `cancel`, `fulfill`). -/
inductive OrderEvent
  | pay
  | cancel
  | fulfill
deriving DecidableEq, Repr, Fintype

/-- The transition table installed by `NewOrderStateMachine`:
pay: pending→paid, cancel: pending→cancelled, fulfill: paid→fulfilled. -/
def orderTransitionTarget : OrderStatus → OrderEvent → Option OrderStatus
  | .pending, .pay => some .paid
  | .pending, .cancel => some .cancelled
  | .paid, .fulfill => some .fulfilled
  | _, _ => none

/-- `OrderStateMachine.CanTransition`: the event is admissible from the
given state. -/
def CanTransition (st : OrderStatus) (e : OrderEvent) : Bool :=
  (orderTransitionTarget st e).isSome

/-- `inferOrderEvent` from internal/db: maps a `(from, to)` status pair to
the FSM event, or nothing when no event produces that move. -/
def inferOrderEvent : OrderStatus → OrderStatus → Option OrderEvent
  | .pending, .paid => some .pay
  | .pending, .cancelled => some .cancel
  | .paid, .fulfilled => some .fulfill
  | _, _ => none

/-! ## Ledger operations (internal/db, unnamed part_014 and db.go) -/

/-- `SELECT ... FROM orders WHERE id = ?` (first row; `id` is the primary
key so at most one row matches in a well-formed table). -/
def findOrder (s : Ledger) (orderID : Nat) : Option Order :=
  s.orders.find? (fun o => o.id == orderID)

/-- `GetOrderByID`: the row, or `ErrOrderNotFound`. -/
def GetOrderByID (s : Ledger) (orderID : Nat) : Except DBError Order :=
  match findOrder s orderID with
  | none => .error .orderNotFound
  | some o => .ok o

/-- `UPDATE orders SET status = ? WHERE id = ?`. -/
def setStatus (orders : List Order) (orderID : Nat) (st : OrderStatus) : List Order :=
  orders.map (fun o => if o.id == orderID then { o with status := st } else o)

/-- `CreateOrder`: one transaction doing the conditional inventory
decrement (`UPDATE inventory SET eggs_available = eggs_available - ?
WHERE id = 1 AND eggs_available >= ?`) and, when a row was affected, the
insert of a new `pending` order. -/
def CreateOrder (s : Ledger) (customerID : Nat) (quantity totalSats : Int) :
    Except DBError (Ledger × Order) :=
  if s.eggsAvailable ≥ quantity then
    let o : Order :=
      { id := s.nextOrderId, customerId := customerID, quantity := quantity,
        totalSats := totalSats, status := .pending }
    .ok ({ s with
            eggsAvailable := s.eggsAvailable - quantity,
            orders := s.orders ++ [o],
            nextOrderId := s.nextOrderId + 1 }, o)
  else
    .error .insufficientInventory

/-- `CancelOrder`: read the order, check the FSM `cancel` event is
admissible (else `ErrOrderNotPending`), then restore the reserved
inventory and flip the status to `cancelled` in one transaction. -/
def CancelOrder (s : Ledger) (orderID : Nat) : Except DBError Ledger :=
  match findOrder s orderID with
  | none => .error .orderNotFound
  | some o =>
    if CanTransition o.status .cancel then
      .ok { s with
              eggsAvailable := s.eggsAvailable + o.quantity,
              orders := setStatus s.orders orderID .cancelled }
    else
      .error .orderNotPending

/-- `UpdateOrderStatus`: load the order, infer the FSM event from
`(status, newStatus)` (no event ⇒ `ErrInvalidStateTransition`), run the
FSM transition, then the plain row update. -/
def UpdateOrderStatus (s : Ledger) (orderID : Nat) (newStatus : OrderStatus) :
    Except DBError Ledger :=
  match findOrder s orderID with
  | none => .error .orderNotFound
  | some o =>
    match inferOrderEvent o.status newStatus with
    | none => .error .invalidStateTransition
    | some e =>
      if CanTransition o.status e then
        .ok { s with orders := setStatus s.orders orderID newStatus }
      else
        .error .invalidStateTransition

/-- `FulfillOrder`: load the order, check the FSM `fulfill` event, then
`UPDATE orders SET status = 'fulfilled' WHERE id = ? AND status = 'paid'`;
zero rows affected ⇒ `ErrInvalidStateTransition`.  No inventory effect. -/
def FulfillOrder (s : Ledger) (orderID : Nat) : Except DBError Ledger :=
  match findOrder s orderID with
  | none => .error .orderNotFound
  | some o =>
    if CanTransition o.status .fulfill then
      if o.status = .paid then
        .ok { s with orders := setStatus s.orders orderID .fulfilled }
      else
        .error .invalidStateTransition
    else
      .error .invalidStateTransition

/-- `RecordTransaction`: plain insert into `transactions`; the UNIQUE
constraint on `zap_event_id` rejects a duplicate id. -/
def RecordTransaction (s : Ledger) (orderID : Option Nat) (zapEventID : String)
    (amountSats : Int) (senderNpub : String) : Except DBError (Ledger × Txn) :=
  if s.txns.any (fun t => t.zapEventId == zapEventID) then
    .error .uniqueViolation
  else
    let t : Txn :=
      { orderId := orderID, zapEventId := zapEventID,
        amountSats := amountSats, senderNpub := senderNpub }
    .ok ({ s with txns := s.txns ++ [t] }, t)

/-- `GetCustomerByNpub`: row lookup by the UNIQUE `npub` column. -/
def GetCustomerByNpub (s : Ledger) (npub : String) : Except DBError CustomerRow :=
  match s.customers.find? (fun c => c.npub == npub) with
  | none => .error .customerNotFound
  | some c => .ok c

/-- `GetCustomerBalance`: `SELECT SUM(amount_sats) FROM transactions WHERE
sender_npub = ?` (`NULL` sum ⇒ 0). -/
def GetCustomerBalance (s : Ledger) (npub : String) : Int :=
  ((s.txns.filter (fun t => t.senderNpub == npub)).map (fun t => t.amountSats)).sum

/-- `GetPendingOrdersByCustomer`: pending orders of the customer,
`ORDER BY created_at DESC` — newest first, i.e. the reverse of insertion
order. -/
def GetPendingOrdersByCustomer (s : Ledger) (customerID : Nat) : List Order :=
  (s.orders.filter (fun o => o.customerId == customerID && o.status == OrderStatus.pending)).reverse

/-! ## Inventory invariant quantities (spec §3 and §8) -/

/-- `SELECT COALESCE(SUM(quantity), 0) FROM orders WHERE status = ?`
over a list of order rows. -/
def qtySum (l : List Order) (st : OrderStatus) : Int :=
  ((l.filter (fun o => o.status == st)).map (fun o => o.quantity)).sum

/-- Sum of `quantity` over orders in a given status (the SQL sums behind
`GetReservedEggs` / `GetSoldEggs`). -/
def statusQty (s : Ledger) (st : OrderStatus) : Int :=
  qtySum s.orders st

/-- `eggs_available + Σ pending.quantity + Σ paid.quantity`. -/
def conservedEggs (s : Ledger) : Int :=
  s.eggsAvailable + statusQty s .pending + statusQty s .paid

/-- Well-formedness of the orders table: primary-key uniqueness of `id`
and freshness of the AUTOINCREMENT counter. -/
def wfLedger (s : Ledger) : Bool :=
  (s.orders.map (fun o => o.id)).Nodup && s.orders.all (fun o => o.id < s.nextOrderId)

/-- The operations quantified over by the conservation law: order
creation and order cancellation. -/
inductive InvOp
  | create (customerID : Nat) (quantity totalSats : Int)
  | cancel (orderID : Nat)
deriving DecidableEq, Repr

/-- Run one operation against the ledger; a failed operation leaves the
database unchanged (the Go code rolls the transaction back). -/
def applyInvOp (s : Ledger) (op : InvOp) : Ledger :=
  match op with
  | .create cid q ts =>
    match CreateOrder s cid q ts with
    | .ok (s', _) => s'
    | .error _ => s
  | .cancel oid =>
    match CancelOrder s oid with
    | .ok s' => s'
    | .error _ => s

/-- A sequence of creations/cancellations. -/
def runInvOps (s : Ledger) (ops : List InvOp) : Ledger :=
  ops.foldl applyInvOp s

/-! ## Helper lemmas about the order table -/

/-- Concrete ledgers used to instantiate theorems with hypotheses. -/
def sampleLedger : Ledger :=
  { eggsAvailable := 30, customers := [{ id := 1, npub := "npub1alice" }],
    orders := [], txns := [], nextOrderId := 1 }

/-- A ledger with too few eggs for a half-dozen order. -/
def lowLedger : Ledger :=
  { eggsAvailable := 5, customers := [{ id := 1, npub := "npub1alice" }],
    orders := [], txns := [], nextOrderId := 1 }

/-- `SetHighWaterMark ts`: `UPDATE high_water_mark SET last_event_at = ?
WHERE id = 1 AND last_event_at < ?` — the stored value changes to `ts`
only when it is strictly smaller. -/
def SetHighWaterMark (stored ts : Int) : Int :=
  if stored < ts then ts else stored

/-- Extracted information from a validated zap receipt. -/
structure ValidatedZap where
  senderNpub : String
  amountSats : Int
  zapEventId : String
deriving DecidableEq, Repr

/-- Outcome of processing a zap (the `Message` strings are elided;
`customerFound` matches the Go field). -/
structure ProcessResult where
  customerFound : Bool
  amountSats : Int
deriving DecidableEq, Repr

/-- `ErrDuplicateZap`: the zap has already been processed. -/
inductive ZapError
  | duplicateZap
deriving DecidableEq, Repr

/-- `ProcessZap`: whitelist check, record the transaction (a UNIQUE
violation on `zap_event_id` maps to `ErrDuplicateZap`), then try to mark
the sender's oldest pending order paid when the running balance covers
it.  `pendingOrders` comes back newest-first, so
`pendingOrders[len(pendingOrders)-1]` — the last element — is the oldest. -/
def ProcessZap (s : Ledger) (zap : ValidatedZap) :
    Except ZapError (Ledger × ProcessResult) :=
  match GetCustomerByNpub s zap.senderNpub with
  | .error _ => .ok (s, { customerFound := false, amountSats := zap.amountSats })
  | .ok customer =>
    match RecordTransaction s none zap.zapEventId zap.amountSats zap.senderNpub with
    | .error _ => .error .duplicateZap
    | .ok (s₁, _) =>
      let pendingOrders := GetPendingOrdersByCustomer s₁ customer.id
      match pendingOrders.getLast? with
      | none => .ok (s₁, { customerFound := true, amountSats := zap.amountSats })
      | some oldestOrder =>
        let balance := GetCustomerBalance s₁ zap.senderNpub
        if balance ≥ oldestOrder.totalSats then
          match UpdateOrderStatus s₁ oldestOrder.id .paid with
          | .ok s₂ => .ok (s₂, { customerFound := true, amountSats := zap.amountSats })
          | .error _ => .ok (s₁, { customerFound := true, amountSats := zap.amountSats })
        else
          .ok (s₁, { customerFound := true, amountSats := zap.amountSats })

/-- The event loop keeps the database unchanged when `ProcessZap` fails. -/
def applyProcessZap (s : Ledger) (zap : ValidatedZap) : Ledger :=
  match ProcessZap s zap with
  | .ok (s', _) => s'
  | .error _ => s

/-- A ledger whose transactions table already holds zap id `zap1`. -/
def zapLedger : Ledger :=
  { eggsAvailable := 24, customers := [{ id := 1, npub := "npub1alice" }],
    orders := [{ id := 1, customerId := 1, quantity := 6, totalSats := 3200,
                 status := .pending }],
    txns := [{ orderId := none, zapEventId := "zap1", amountSats := 3500,
               senderNpub := "npub1alice" }],
    nextOrderId := 2 }

/-- The replayed zap: same event id as the row already in `zapLedger`. -/
def replayedZap : ValidatedZap :=
  { senderNpub := "npub1alice", amountSats := 3500, zapEventId := "zap1" }

/-- The public ledger calls that can change an order's status. -/
inductive LedgerCall
  | updateStatus (orderID : Nat) (newStatus : OrderStatus)
  | fulfill (orderID : Nat)
  | cancel (orderID : Nat)
deriving DecidableEq, Repr

/-- Run one public call; a failed call leaves the database unchanged. -/
def applyLedgerCall (s : Ledger) (c : LedgerCall) : Ledger :=
  match c with
  | .updateStatus oid ns =>
    match UpdateOrderStatus s oid ns with
    | .ok s' => s'
    | .error _ => s
  | .fulfill oid =>
    match FulfillOrder s oid with
    | .ok s' => s'
    | .error _ => s
  | .cancel oid =>
    match CancelOrder s oid with
    | .ok s' => s'
    | .error _ => s

/-- A sequence of public ledger calls. -/
def runLedgerCalls (s : Ledger) (calls : List LedgerCall) : Ledger :=
  calls.foldl applyLedgerCall s

/-- Reachability along the order FSM edges
`pending→paid→fulfilled` / `pending→cancelled` (reflexive-transitive
closure of the transition table). -/
def statusReachable : OrderStatus → OrderStatus → Bool
  | .pending, _ => true
  | .paid, .paid => true
  | .paid, .fulfilled => true
  | .fulfilled, .fulfilled => true
  | .cancelled, .cancelled => true
  | _, _ => false

/-- A ledger whose only order is already `paid`. -/
def paidLedger : Ledger :=
  { eggsAvailable := 24, customers := [{ id := 1, npub := "npub1alice" }],
    orders := [{ id := 1, customerId := 1, quantity := 6, totalSats := 3200,
                 status := .paid }],
    txns := [], nextOrderId := 2 }

/-- The ledger right after `RecordTransaction` appended the zap's row. -/
def recordedLedger (s : Ledger) (zap : ValidatedZap) : Ledger :=
  { s with txns := s.txns ++
      [{ orderId := none, zapEventId := zap.zapEventId,
         amountSats := zap.amountSats, senderNpub := zap.senderNpub }] }

/-- The ledger after the oldest pending order was additionally marked
paid. -/
def paidMarkedLedger (s : Ledger) (zap : ValidatedZap) (oid : Nat) : Ledger :=
  { recordedLedger s zap with orders := setStatus s.orders oid .paid }

/-- Two pending orders (6400 + 3200 sats); the incoming zap covers both. -/
def autoPayLedger : Ledger :=
  { eggsAvailable := 12, customers := [{ id := 1, npub := "npub1alice" }],
    orders := [{ id := 1, customerId := 1, quantity := 6, totalSats := 3200,
                 status := .pending },
               { id := 2, customerId := 1, quantity := 12, totalSats := 6400,
                 status := .pending }],
    txns := [], nextOrderId := 3 }

/-- A 10000-sat zap — enough for both pending orders of `autoPayLedger`. -/
def autoPayZap : ValidatedZap :=
  { senderNpub := "npub1alice", amountSats := 10000, zapEventId := "zapA" }

/-- `strings.HasPrefix` on character lists (first argument: the prefix). -/
def listIsPrefixOf : List Char → List Char → Bool
  | [], _ => true
  | _ :: _, [] => false
  | p :: ps, c :: cs => p == c && listIsPrefixOf ps cs

/-- `strings.HasPrefix(s, pre)`. -/
def goHasPrefix (s pre : String) : Bool :=
  listIsPrefixOf pre.data s.data

/-! ## Go integer parsing (strconv.ParseInt(s, 10, 64)) -/

/-- Decimal value of a digit string (most significant first). -/
def digitsVal (acc : Nat) : List Char → Nat
  | [] => acc
  | c :: rest => digitsVal (acc * 10 + (c.toNat - Char.toNat '0')) rest

/-- The unsigned part of `strconv.ParseInt`: decimal digits with a
signed-64-bit range check. -/
def goParseDigits (neg : Bool) (ds : List Char) : Except String Int :=
  if ds = [] then .error "invalid syntax"
  else if ds.all Char.isDigit then
    let v : Nat := digitsVal 0 ds
    if neg then
      if v ≤ 2 ^ 63 then .ok (-(v : Int)) else .error "value out of range"
    else
      if v ≤ 2 ^ 63 - 1 then .ok (v : Int) else .error "value out of range"
  else .error "invalid syntax"

/-- `strconv.ParseInt(s, 10, 64)`: optional sign, decimal digits, error
on empty input, a non-digit, or a value outside the signed 64-bit
range. -/
def goParseInt64 (s : List Char) : Except String Int :=
  match s with
  | [] => .error "invalid syntax"
  | c :: rest =>
    if c == '+' then goParseDigits false rest
    else if c == '-' then goParseDigits true rest
    else goParseDigits false (c :: rest)

/-! ## Admin adjust command (internal/commands/admin_commands.go, C10) -/

/-- `AdjustCmd`: validate the npub (shape check, then the nip19 decode —
the decode outcome is a parameter of the model), parse the amount,
require the customer to exist, then record a transaction whose synthetic
zap id is `adjust-<sats>`.  Errors carry the Go error strings. -/
def AdjustCmd (decodeOk : String → Bool) (s : Ledger) (args : List String) :
    Except String (Ledger × String) :=
  match args with
  | npub :: astr :: _ =>
    if goHasPrefix npub "npub1" then
      match goParseInt64 astr.data with
      | .error _ => .error "amount must be a number (can be negative)"
      | .ok amount =>
        if decodeOk npub then
          match GetCustomerByNpub s npub with
          | .error _ => .error "customer not found"
          | .ok _ =>
            let eventID := "adjust-" ++ toString amount
            match RecordTransaction s none eventID amount npub with
            | .error _ => .error "recording adjustment"
            | .ok (s', _) =>
              if amount ≥ 0 then
                .ok (s', "Added " ++ toString amount ++ " sats to " ++ npub)
              else
                .ok (s', "Deducted " ++ toString (-amount) ++ " sats from " ++ npub)
        else .error "invalid npub"
    else .error "invalid npub format"
  | _ => .error "usage: adjust <npub> <sats>"

/-- The dispatcher keeps the ledger unchanged when a command errors. -/
def applyAdjustCmd (decodeOk : String → Bool) (s : Ledger) (args : List String) :
    Ledger :=
  match AdjustCmd decodeOk s args with
  | .ok (s', _) => s'
  | .error _ => s

/-- Two registered customers and an empty transactions table. -/
def adjLedger : Ledger :=
  { eggsAvailable := 0,
    customers := [{ id := 1, npub := "npub1alice" }, { id := 2, npub := "npub1bob" }],
    orders := [], txns := [], nextOrderId := 1 }

/-- `adjLedger` after `adjust npub1alice 500` recorded its row. -/
def adjLedgerAfter : Ledger :=
  { adjLedger with
    txns := [{ orderId := none, zapEventId := "adjust-500", amountSats := 500,
               senderNpub := "npub1alice" }] }

/-- Two's-complement wrap of a signed 64-bit product (Go `int64`
multiplication wraps silently). -/
def int64Wrap (n : Int) : Int :=
  (n + 2 ^ 63) % 2 ^ 64 - 2 ^ 63

/-- `strings.LastIndex(invoice, "1")` as an optional index. -/
def lastIndexOf1 (l : List Char) : Option Nat :=
  match l.reverse.findIdx? (fun c => c == '1') with
  | none => none
  | some k => some (l.length - 1 - k)

/-- The multiplier table of `extractAmountFromBolt11`: msats per unit for
`m`/`u`/`n`, and 0 for `p` (the code rounds pico-BTC down to 0 msat). -/
def multOfChar (c : Char) : Option Int :=
  if c = 'm' then some 100000000
  else if c = 'u' then some 100000
  else if c = 'n' then some 100
  else if c = 'p' then some 0
  else none

/-- The body of `extractAmountFromBolt11` after the `ToLower`
reassignment. -/
def extractFromLowered (invoice : List Char) : Except String Int :=
  let amountStart? : Option Nat :=
    if listIsPrefixOf ['l', 'n', 'b', 'c', 'r', 't'] invoice then some 6
    else if listIsPrefixOf ['l', 'n', 'b', 'c'] invoice then some 4
    else if listIsPrefixOf ['l', 'n', 't', 'b'] invoice then some 4
    else none
  match amountStart? with
  | none => .error "unrecognized invoice prefix"
  | some amountStart =>
    match lastIndexOf1 invoice with
    | none => .error "invalid invoice format: no separator found"
    | some sepIndex =>
      if sepIndex ≤ amountStart then
        .error "invalid invoice format: no separator found"
      else
        let amountPart := (invoice.drop amountStart).take (sepIndex - amountStart)
        match amountPart.getLast? with
        | none => .error "no amount in invoice"
        | some lastChar =>
          if lastChar.isDigit then
            match goParseInt64 amountPart with
            | .error _ => .error "invalid amount number"
            | .ok amount => .ok (int64Wrap (amount * 100000000000))
          else
            match multOfChar lastChar with
            | none => .error "unknown multiplier"
            | some multiplier =>
              match goParseInt64 amountPart.dropLast with
              | .error _ => .error "invalid amount number"
              | .ok amount => .ok (int64Wrap (amount * multiplier))

/-- `extractAmountFromBolt11`: lowercase, strip the network prefix
(`lnbcrt` before `lnbc`/`lntb`), find the separator as the last `1`,
split off the amount part, read the optional multiplier letter, parse
the decimal amount, and multiply (64-bit). -/
def extractAmountFromBolt11 (invoice0 : List Char) : Except String Int :=
  extractFromLowered (invoice0.map Char.toLower)

/-- The amount part of `ValidateZapReceipt`: extract millisatoshi from
the bolt11 tag, then `amountSats := amountMsats / 1000` (Go integer
division truncates toward zero). -/
def zapAmountSats (invoice : List Char) : Except String Int :=
  match extractAmountFromBolt11 invoice with
  | .error e => .error e
  | .ok msats => .ok (Int.tdiv msats 1000)

/-- The recognized multiplier letters. -/
inductive Bolt11Mult
  | m
  | u
  | n
  | p
deriving DecidableEq, Repr, Fintype

/-- The letter of each multiplier. -/
def multChar : Bolt11Mult → Char
  | .m => 'm'
  | .u => 'u'
  | .n => 'n'
  | .p => 'p'

/-- Millisatoshi per invoice amount unit, as the code implements it
(whole BTC when the letter is absent; `p` collapses to 0). -/
def multMsats : Option Bolt11Mult → Int
  | none => 100000000000
  | some .m => 100000000
  | some .u => 100000
  | some .n => 100
  | some .p => 0

/-- `unicode.IsSpace` (the white-space code points). -/
def goIsSpace (c : Char) : Bool :=
  c == ' ' || c == '\t' || c == '\n' || c == '\x0b' || c == '\x0c' || c == '\r' ||
  c == '\x85' || c == '\xa0' || c == '\u1680' ||
  ('\u2000' ≤ c && c ≤ '\u200A') ||
  c == '\u2028' || c == '\u2029' || c == '\u202F' || c == '\u205F' || c == '\u3000'

/-- `strings.TrimSpace`: drop white space from both ends. -/
def trimSpace (s : List Char) : List Char :=
  ((s.dropWhile goIsSpace).reverse.dropWhile goIsSpace).reverse

/-- `strings.Split(content, "\n")`, accumulating the current line. -/
def splitNLAux (acc : List Char) : List Char → List (List Char)
  | [] => [acc.reverse]
  | c :: rest =>
    if c = '\n' then acc.reverse :: splitNLAux [] rest
    else splitNLAux (c :: acc) rest

/-- `strings.Split(content, "\n")`. -/
def splitNL (s : List Char) : List (List Char) :=
  splitNLAux [] s

/-- `strings.Join(lines, "\n")`. -/
def joinNL : List (List Char) → List Char
  | [] => []
  | [l] => l
  | l :: ls => l ++ '\n' :: joinNL ls

/-- A markdown comment line: after trimming it starts with `[//]:`. -/
def isCommentLine (l : List Char) : Bool :=
  listIsPrefixOf "[//]:".data (trimSpace l)

/-- `stripMarkdownComments`: drop every whole line that begins (after
trimming) with `[//]:`, and rejoin the rest with newlines. -/
def stripMarkdownComments (content : List Char) : List Char :=
  joinNL ((splitNL content).filter (fun l => !(isCommentLine l)))

/-- `strings.Fields`: split around runs of white space. -/
def fieldsAux (acc : List Char) : List Char → List (List Char)
  | [] => if acc = [] then [] else [acc.reverse]
  | c :: rest =>
    if goIsSpace c then
      if acc = [] then fieldsAux [] rest else acc.reverse :: fieldsAux [] rest
    else fieldsAux (c :: acc) rest

/-- `strings.Fields`. -/
def fields (s : List Char) : List (List Char) :=
  fieldsAux [] s

/-- A parsed command: lowercased name and positional args. -/
structure Command where
  name : List Char
  args : List (List Char)
deriving DecidableEq, Repr

/-- `commands.Parse`: strip markdown comment lines, trim, split on white
space; the first token (lowercased) is the name, the rest the args;
empty input gives nothing. -/
def Parse (content : List Char) : Option Command :=
  let stripped := stripMarkdownComments content
  let trimmed := trimSpace stripped
  if trimmed = [] then none
  else
    match fields trimmed with
    | [] => none
    | w :: ws => some { name := w.map Char.toLower, args := ws }

/-- The markdown comment line of the spec's end-to-end scenario 6. -/
def nip18Line : List Char := "[//]: # (nip18)".data

/-- Outcome of `database.TryProcess` as the loop sees it. -/
inductive DedupOutcome
  | fresh
  | duplicate
  | dbError
deriving DecidableEq, Repr, Fintype

/-- The DM event kinds the loop distinguishes. -/
inductive DMKind
  | legacy
  | giftWrap
  | other
deriving DecidableEq, Repr, Fintype

/-- The outcome of every fallible step of the DM arm of the event loop,
in program order. -/
structure DMBranchOutcomes where
  fsmDMReceived : Bool
  dedup : DedupOutcome
  kind : DMKind
  decryptOk : Bool
  isBroadcast : Bool
  senderIsAdmin : Bool
  broadcastEmpty : Bool
  parsedSome : Bool
  cmdValid : Bool
  permissionOk : Bool
  fsmCommandProcessed : Bool
  execError : Bool
  fsmResponseSent : Bool
deriving DecidableEq, Repr

/-- Whether the DM arm of `runBot` calls `SetHighWaterMark` for the event
before finishing with it — the `continue` paths of the source in program
order (FSM refusal, dedup error, duplicate, then the decrypt / broadcast /
parse / permission / FSM / execute / respond paths). -/
def dmBranchSetsWatermark (o : DMBranchOutcomes) : Bool :=
  if !o.fsmDMReceived then
    false
  else
    match o.dedup with
    | .dbError => false
    | .duplicate => false
    | .fresh =>
      match o.kind with
      | .other => true
      | _ =>
        if !o.decryptOk then true
        else if o.isBroadcast then
          if !o.senderIsAdmin then true
          else if o.broadcastEmpty then true
          else true
        else if !o.parsedSome then true
        else if !o.cmdValid then true
        else if !o.permissionOk then true
        else if !o.fsmCommandProcessed then true
        else if o.execError then true
        else if !o.fsmResponseSent then true
        else true

/-- The outcome of every fallible step of the zap arm of the event loop,
in program order. -/
structure ZapBranchOutcomes where
  fsmZapReceived : Bool
  dedup : DedupOutcome
  validateOk : Bool
  processOk : Bool
  fsmResponseSent : Bool
deriving DecidableEq, Repr

/-- Whether the zap arm of `runBot` calls `SetHighWaterMark` for the
event before finishing with it. -/
def zapBranchSetsWatermark (o : ZapBranchOutcomes) : Bool :=
  if !o.fsmZapReceived then
    false
  else
    match o.dedup with
    | .dbError => false
    | .duplicate => false
    | .fresh =>
      if !o.validateOk then true
      else if !o.processOk then true
      else if !o.fsmResponseSent then true
      else true

/-- A DM event whose initial `dm_received` FSM transition is refused:
every later step would succeed, but the loop skips the event. -/
def fsmRefusedDM : DMBranchOutcomes :=
  { fsmDMReceived := false, dedup := .fresh, kind := .legacy, decryptOk := true,
    isBroadcast := false, senderIsAdmin := false, broadcastEmpty := false,
    parsedSome := true, cmdValid := true, permissionOk := true,
    fsmCommandProcessed := true, execError := false, fsmResponseSent := true }

/-- A DM event whose dedup check reports a duplicate. -/
def duplicateDM : DMBranchOutcomes :=
  { fsmRefusedDM with fsmDMReceived := true, dedup := .duplicate }

lemma canTransition_cancel_iff (st : OrderStatus) :
    CanTransition st .cancel = true ↔ st = .pending := by
  cases st <;> simp [CanTransition, orderTransitionTarget]

lemma canTransition_fulfill_iff (st : OrderStatus) :
    CanTransition st .fulfill = true ↔ st = .paid := by
  cases st <;> simp [CanTransition, orderTransitionTarget]

/-- Splitting an order table with unique ids at the row that `find?`
locates: the row update touches exactly that row. -/
lemma setStatus_split (l : List Order) (oid : Nat) (st' : OrderStatus) (o : Order)
    (hn : (l.map (fun x => x.id)).Nodup) (hf : l.find? (fun x => x.id == oid) = some o) :
    ∃ l₁ l₂, l = l₁ ++ o :: l₂ ∧ o.id = oid ∧
      (∀ x ∈ l₁, x.id ≠ oid) ∧ (∀ x ∈ l₂, x.id ≠ oid) ∧
      setStatus l oid st' = l₁ ++ ({ o with status := st' } :: l₂) := by
  induction l with
  | nil => simp at hf
  | cons c t ih =>
    simp only [List.map_cons, List.nodup_cons] at hn
    by_cases hc : c.id = oid
    · have hfind : (c :: t).find? (fun x => x.id == oid) = some c := by
        simp [List.find?_cons, hc]
      rw [hfind] at hf
      obtain rfl : c = o := by injection hf
      have htail : ∀ x ∈ t, x.id ≠ oid := by
        intro x hx hxid
        exact hn.1 (List.mem_map.mpr ⟨x, hx, by rw [hxid, hc]⟩)
      refine ⟨[], t, by simp, hc, by simp, htail, ?_⟩
      simp only [setStatus, List.map_cons, List.nil_append]
      rw [if_pos (by simp [hc])]
      congr 1
      conv_rhs => rw [← List.map_id t]
      apply List.map_congr_left
      intro a ha
      simp [htail a ha]
    · have hfind : (c :: t).find? (fun x => x.id == oid) = t.find? (fun x => x.id == oid) := by
        simp [List.find?_cons, hc]
      rw [hfind] at hf
      obtain ⟨l₁, l₂, hsplit, hid, h₁, h₂, hset⟩ := ih hn.2 hf
      refine ⟨c :: l₁, l₂, by simp [hsplit], hid, ?_, h₂, ?_⟩
      · intro x hx
        rcases List.mem_cons.mp hx with rfl | hx'
        · exact hc
        · exact h₁ x hx'
      · simp only [setStatus, List.map_cons, List.cons_append]
        rw [if_neg (by simp [hc])]
        simp only [setStatus] at hset
        rw [hset]

lemma qtySum_append (l₁ l₂ : List Order) (st : OrderStatus) :
    qtySum (l₁ ++ l₂) st = qtySum l₁ st + qtySum l₂ st := by
  simp [qtySum, List.filter_append]

lemma qtySum_cons (o : Order) (l : List Order) (st : OrderStatus) :
    qtySum (o :: l) st = (if o.status = st then o.quantity else 0) + qtySum l st := by
  by_cases h : o.status = st <;> simp [qtySum, List.filter_cons, h]

/-- `setStatus` does not touch the id column. -/
lemma setStatus_map_id (l : List Order) (oid : Nat) (st : OrderStatus) :
    (setStatus l oid st).map (fun o => o.id) = l.map (fun o => o.id) := by
  simp only [setStatus, List.map_map]
  apply List.map_congr_left
  intro a _
  by_cases h : a.id = oid <;> simp [h]

/-- A creation or cancellation preserves table well-formedness and the
conserved quantity `eggs_available + Σ pending + Σ paid`. -/
lemma applyInvOp_conserved (s : Ledger) (hwf : wfLedger s = true) (op : InvOp) :
    conservedEggs (applyInvOp s op) = conservedEggs s ∧
      wfLedger (applyInvOp s op) = true := by
  simp only [wfLedger, Bool.and_eq_true, List.all_eq_true, decide_eq_true_eq] at hwf
  obtain ⟨hnodup, hlt⟩ := hwf
  cases op with
  | create cid q ts =>
    simp only [applyInvOp, CreateOrder]
    by_cases h : s.eggsAvailable ≥ q
    · simp only [if_pos h]
      constructor
      · simp only [conservedEggs, statusQty, qtySum_append]
        simp [qtySum_cons, qtySum]
      · simp only [wfLedger, Bool.and_eq_true, List.all_eq_true, decide_eq_true_eq]
        constructor
        · simp only [List.map_append, List.map_cons, List.map_nil]
          rw [List.nodup_append]
          refine ⟨hnodup, by simp, ?_⟩
          intro a ha hb
          simp only [List.mem_singleton] at hb
          obtain ⟨x, hx, rfl⟩ := List.mem_map.mp ha
          exact absurd hb (Nat.ne_of_lt (hlt x hx))
        · intro o ho
          rcases List.mem_append.mp ho with ho | ho
          · exact Nat.lt_succ_of_lt (hlt o ho)
          · simp only [List.mem_singleton] at ho
            simp [ho]
    · simp only [if_neg h]
      refine ⟨by trivial, ?_⟩
      simp only [wfLedger, Bool.and_eq_true, List.all_eq_true, decide_eq_true_eq]
      exact ⟨hnodup, hlt⟩
  | cancel oid =>
    simp only [applyInvOp, CancelOrder, findOrder]
    cases hfind : s.orders.find? (fun o => o.id == oid) with
    | none =>
      refine ⟨rfl, ?_⟩
      simp only [wfLedger, Bool.and_eq_true, List.all_eq_true, decide_eq_true_eq]
      exact ⟨hnodup, hlt⟩
    | some o =>
      by_cases hcan : CanTransition o.status .cancel = true
      · have hpend : o.status = .pending := (canTransition_cancel_iff o.status).mp hcan
        obtain ⟨l₁, l₂, hsplit, hid, h₁, h₂, hset⟩ :=
          setStatus_split s.orders oid .cancelled o hnodup hfind
        simp only [hcan, if_true]
        have hset' : setStatus (l₁ ++ o :: l₂) oid OrderStatus.cancelled =
            l₁ ++ { o with status := .cancelled } :: l₂ := by
          rw [← hsplit]; exact hset
        constructor
        · simp only [conservedEggs, statusQty, hsplit, hset', qtySum_append, qtySum_cons,
            hpend]
          simp
          ring
        · simp only [wfLedger, Bool.and_eq_true, List.all_eq_true, decide_eq_true_eq]
          refine ⟨by rw [setStatus_map_id]; exact hnodup, ?_⟩
          intro x hx
          rw [hset] at hx
          rcases List.mem_append.mp hx with hx | hx
          · exact hlt x (by rw [hsplit]; exact List.mem_append_left _ hx)
          · rcases List.mem_cons.mp hx with rfl | hx
            · exact hlt o (by rw [hsplit]; exact List.mem_append_right _ (List.mem_cons_self _ _))
            · exact hlt x (by rw [hsplit]; exact List.mem_append_right _ (List.mem_cons_of_mem _ hx))
      · simp only [Bool.not_eq_true] at hcan
        simp only [hcan]
        refine ⟨rfl, ?_⟩
        simp only [wfLedger, Bool.and_eq_true, List.all_eq_true, decide_eq_true_eq]
        exact ⟨hnodup, hlt⟩

lemma runInvOps_conserved (ops : List InvOp) :
    ∀ s : Ledger, wfLedger s = true → conservedEggs (runInvOps s ops) = conservedEggs s := by
  induction ops with
  | nil => intro s _; rfl
  | cons op ops ih =>
    intro s h
    have step := applyInvOp_conserved s h op
    calc conservedEggs (runInvOps s (op :: ops))
        = conservedEggs (runInvOps (applyInvOp s op) ops) := rfl
      _ = conservedEggs (applyInvOp s op) := ih _ step.2
      _ = conservedEggs s := step.1

/-- C1 — Inventory conservation: across any sequence of `CreateOrder` /
`CancelOrder` operations (no `AddEggs`/`SetInventory`), the quantity
`eggs_available + Σ pending.quantity + Σ paid.quantity` is unchanged;
moreover a successful `CreateOrder` debits the inventory by exactly the
new order's quantity and a successful `CancelOrder` restores exactly the
cancelled order's quantity. -/
theorem inventory_conservation (s : Ledger) (hwf : wfLedger s = true) (ops : List InvOp) :
    conservedEggs (runInvOps s ops) = conservedEggs s ∧
    (∀ cid q ts s' o, CreateOrder s cid q ts = .ok (s', o) →
        o.quantity = q ∧ s'.eggsAvailable = s.eggsAvailable - q) ∧
    (∀ oid s', CancelOrder s oid = .ok s' →
        ∃ o, findOrder s oid = some o ∧ s'.eggsAvailable = s.eggsAvailable + o.quantity) := by
  refine ⟨runInvOps_conserved ops s hwf, ?_, ?_⟩
  · intro cid q ts s' o h
    simp only [CreateOrder] at h
    by_cases hq : s.eggsAvailable ≥ q
    · rw [if_pos hq] at h
      obtain ⟨h₁, h₂⟩ : _ ∧ _ := by
        have := h
        injection this with hpair
        exact ⟨congrArg Prod.fst hpair, congrArg Prod.snd hpair⟩
      subst h₁ h₂
      exact ⟨rfl, rfl⟩
    · rw [if_neg hq] at h
      exact absurd h (by simp)
  · intro oid s' h
    simp only [CancelOrder] at h
    split at h
    · exact absurd h (by simp)
    · rename_i o hfind
      split at h
      · injection h with hs
        exact ⟨o, hfind, by rw [← hs]⟩
      · exact absurd h (by simp)

/-- Witness for C1 at a concrete ledger and operation sequence. -/
theorem inventory_conservation_witness :
    wfLedger sampleLedger = true ∧
      conservedEggs (runInvOps sampleLedger
        [.create 1 6 3200, .create 1 12 6400, .cancel 1]) = conservedEggs sampleLedger :=
  ⟨by decide,
    (inventory_conservation sampleLedger (by decide)
      [.create 1 6 3200, .create 1 12 6400, .cancel 1]).1⟩

/-- C2 — `CreateOrder` is atomic: with `quantity > eggs_available` it
fails with `InsufficientInventory` and changes nothing; otherwise it
decrements the inventory by exactly `quantity` and appends exactly one
new `pending` order carrying the given quantity and total sats, returning
that order. -/
theorem order_create_atomic (s : Ledger) (cid : Nat) (q ts : Int) :
    (q > s.eggsAvailable →
        CreateOrder s cid q ts = .error .insufficientInventory ∧
        applyInvOp s (.create cid q ts) = s) ∧
    (q ≤ s.eggsAvailable →
        CreateOrder s cid q ts =
          .ok ({ s with
                  eggsAvailable := s.eggsAvailable - q,
                  orders := s.orders ++
                    [{ id := s.nextOrderId, customerId := cid, quantity := q,
                       totalSats := ts, status := .pending }],
                  nextOrderId := s.nextOrderId + 1 },
               { id := s.nextOrderId, customerId := cid, quantity := q,
                 totalSats := ts, status := .pending })) := by
  constructor
  · intro h
    have hn : ¬ s.eggsAvailable ≥ q := not_le.mpr h
    constructor
    · simp only [CreateOrder, if_neg hn]
    · simp only [applyInvOp, CreateOrder, if_neg hn]
  · intro h
    have h' : s.eggsAvailable ≥ q := h
    simp only [CreateOrder, if_pos h']

/-- Witness for C2: both branches at concrete ledgers (5 eggs vs 30). -/
theorem order_create_atomic_witness :
    (CreateOrder lowLedger 1 6 3200 = .error .insufficientInventory ∧
      applyInvOp lowLedger (.create 1 6 3200) = lowLedger) ∧
    CreateOrder sampleLedger 1 6 3200 =
      .ok ({ sampleLedger with
              eggsAvailable := sampleLedger.eggsAvailable - 6,
              orders := sampleLedger.orders ++
                [{ id := sampleLedger.nextOrderId, customerId := 1, quantity := 6,
                   totalSats := 3200, status := .pending }],
              nextOrderId := sampleLedger.nextOrderId + 1 },
           { id := sampleLedger.nextOrderId, customerId := 1, quantity := 6,
             totalSats := 3200, status := .pending }) :=
  ⟨(order_create_atomic lowLedger 1 6 3200).1 (by decide),
   (order_create_atomic sampleLedger 1 6 3200).2 (by decide)⟩

/-! ## Watermark (internal/db/db.go) -/

lemma setHighWaterMark_eq_max (stored ts : Int) :
    SetHighWaterMark stored ts = max stored ts := by
  rcases lt_trichotomy stored ts with h | h | h
  · rw [SetHighWaterMark, if_pos h, max_eq_right h.le]
  · rw [SetHighWaterMark, if_neg (by omega), h, max_self]
  · rw [SetHighWaterMark, if_neg (by omega), max_eq_left h.le]

lemma foldl_max_init_le (l : List Int) : ∀ a : Int, a ≤ l.foldl max a := by
  induction l with
  | nil => intro a; exact le_refl a
  | cons b t ih => intro a; exact le_trans (le_max_left a b) (ih (max a b))

lemma mem_le_foldl_max (l : List Int) : ∀ a : Int, ∀ t ∈ l, t ≤ l.foldl max a := by
  induction l with
  | nil => intro a t ht; simp at ht
  | cons b t ih =>
    intro a x hx
    rcases List.mem_cons.mp hx with rfl | hx'
    · exact le_trans (le_max_right a x) (foldl_max_init_le t (max a x))
    · exact ih (max a b) x hx'

lemma foldl_max_mem (l : List Int) : ∀ a : Int, l.foldl max a = a ∨ l.foldl max a ∈ l := by
  induction l with
  | nil => intro a; exact Or.inl rfl
  | cons b t ih =>
    intro a
    rcases ih (max a b) with h | h
    · rcases max_choice a b with hm | hm
      · exact Or.inl (by rw [List.foldl_cons, h, hm])
      · exact Or.inr (by rw [List.foldl_cons, h, hm]; exact List.mem_cons_self _ _)
    · exact Or.inr (List.mem_cons_of_mem _ h)

/-- C7 — Monotone watermark: a `SetHighWaterMark ts` call updates the
stored value only when it is strictly smaller than `ts` (so the value
never moves backward), and after any sequence of calls starting from the
seeded value 0 with nonnegative timestamps, the stored value is the
maximum of the timestamps. -/
theorem watermark_monotone (l : List Int) (h : ∀ t ∈ l, 0 ≤ t) :
    (∀ stored ts : Int,
        stored ≤ SetHighWaterMark stored ts ∧
        (stored < ts → SetHighWaterMark stored ts = ts) ∧
        (¬ stored < ts → SetHighWaterMark stored ts = stored)) ∧
    l.foldl SetHighWaterMark 0 = l.foldl max 0 ∧
    (∀ t ∈ l, t ≤ l.foldl SetHighWaterMark 0) ∧
    (l ≠ [] → l.foldl SetHighWaterMark 0 ∈ l) := by
  have hfold : l.foldl SetHighWaterMark 0 = l.foldl max 0 := by
    have : SetHighWaterMark = max := by
      funext a b; exact setHighWaterMark_eq_max a b
    rw [this]
  refine ⟨?_, hfold, ?_, ?_⟩
  · intro stored ts
    refine ⟨?_, fun hlt => by rw [SetHighWaterMark, if_pos hlt],
      fun hge => by rw [SetHighWaterMark, if_neg hge]⟩
    rw [setHighWaterMark_eq_max]
    exact le_max_left stored ts
  · intro t ht
    rw [hfold]
    exact mem_le_foldl_max l 0 t ht
  · intro hne
    rw [hfold]
    cases l with
    | nil => exact absurd rfl hne
    | cons b t =>
      rw [List.foldl_cons, max_eq_right (h b (List.mem_cons_self _ _))]
      rcases foldl_max_mem t b with hm | hm
      · rw [hm]; exact List.mem_cons_self _ _
      · exact List.mem_cons_of_mem _ hm

/-- Witness for C7 at the out-of-order timestamps of the db test. -/
theorem watermark_monotone_witness :
    (∀ t ∈ ([100, 200, 150] : List Int),
        t ≤ ([100, 200, 150] : List Int).foldl SetHighWaterMark 0) ∧
      ([100, 200, 150] : List Int).foldl SetHighWaterMark 0 ∈
        ([100, 200, 150] : List Int) :=
  ⟨(watermark_monotone [100, 200, 150] (by decide)).2.2.1,
   (watermark_monotone [100, 200, 150] (by decide)).2.2.2 (by decide)⟩

/-! ## Zap processor (internal/zaps/processor.go) -/

/-- `UpdateOrderStatus` never touches the transactions table. -/
lemma updateOrderStatus_txns (s : Ledger) (oid : Nat) (st : OrderStatus) (s' : Ledger)
    (h : UpdateOrderStatus s oid st = .ok s') : s'.txns = s.txns := by
  simp only [UpdateOrderStatus] at h
  split at h
  · exact absurd h (by simp)
  · split at h
    · exact absurd h (by simp)
    · split at h
      · injection h with hs
        rw [← hs]
      · exact absurd h (by simp)

/-- A successful `RecordTransaction` presupposes a fresh id and appends
exactly the new row. -/
lemma recordTransaction_ok (s : Ledger) (oid : Option Nat) (zid : String)
    (amt : Int) (np : String) (s' : Ledger) (t : Txn)
    (h : RecordTransaction s oid zid amt np = .ok (s', t)) :
    s.txns.any (fun x => x.zapEventId == zid) = false ∧
    t = { orderId := oid, zapEventId := zid, amountSats := amt, senderNpub := np } ∧
    s' = { s with txns := s.txns ++ [t] } := by
  simp only [RecordTransaction] at h
  split at h
  · exact absurd h (by simp)
  · rename_i hany
    injection h with hpair
    have h1 : ({ s with txns := s.txns ++ [⟨oid, zid, amt, np⟩] } : Ledger) = s' :=
      congrArg Prod.fst hpair
    have h2 : (⟨oid, zid, amt, np⟩ : Txn) = t := congrArg Prod.snd hpair
    refine ⟨by simpa using hany, h2.symm, ?_⟩
    rw [← h1, h2]

/-- C3 — At-most-once zap credit: with pairwise-distinct
`zap_event_id`s, any successful `ProcessZap` keeps them distinct; a
replay of an already-present `zap_event_id` makes `RecordTransaction`
fail on the UNIQUE constraint, `ProcessZap` maps that failure to
`DuplicateZap` (whenever the sender is a registered customer, the only
path that records), and the ledger is unchanged by the replay. -/
theorem at_most_once_zap_credit (s : Ledger) (zap : ValidatedZap)
    (hdup : (s.txns.map (fun t => t.zapEventId)).Nodup) :
    (∀ r, ProcessZap s zap = .ok r → (r.1.txns.map (fun t => t.zapEventId)).Nodup) ∧
    (s.txns.any (fun t => t.zapEventId == zap.zapEventId) = true →
        RecordTransaction s none zap.zapEventId zap.amountSats zap.senderNpub =
          .error .uniqueViolation ∧
        (∀ c, GetCustomerByNpub s zap.senderNpub = .ok c →
            ProcessZap s zap = .error .duplicateZap) ∧
        applyProcessZap s zap = s) := by
  constructor
  · intro r hr
    simp only [ProcessZap] at hr
    split at hr
    · injection hr with hr'
      rw [← hr']
      exact hdup
    · rename_i customer hcust
      split at hr
      · exact absurd hr (by simp)
      · rename_i s₁ t hrec
        obtain ⟨hfresh, ht, hs₁⟩ :=
          recordTransaction_ok s none zap.zapEventId zap.amountSats zap.senderNpub s₁ t hrec
        have hnotin : zap.zapEventId ∉ s.txns.map (fun t => t.zapEventId) := by
          intro hmem
          obtain ⟨x, hx, hxe⟩ := List.mem_map.mp hmem
          have : s.txns.any (fun t => t.zapEventId == zap.zapEventId) = true := by
            rw [List.any_eq_true]
            exact ⟨x, hx, by simp [hxe]⟩
          rw [this] at hfresh
          simp at hfresh
        have hs₁nodup : (s₁.txns.map (fun t => t.zapEventId)).Nodup := by
          rw [hs₁]
          simp only [List.map_append, List.map_cons, List.map_nil]
          rw [List.nodup_append]
          refine ⟨hdup, by simp, ?_⟩
          intro a ha hb
          simp only [List.mem_singleton] at hb
          rw [hb, ht] at ha
          exact hnotin ha
        split at hr
        · injection hr with hr'
          rw [← hr']
          exact hs₁nodup
        · split at hr
          · split at hr
            · rename_i s₂ hupd
              injection hr with hr'
              rw [← hr']
              simpa [updateOrderStatus_txns _ _ _ _ hupd] using hs₁nodup
            · injection hr with hr'
              rw [← hr']
              exact hs₁nodup
          · injection hr with hr'
            rw [← hr']
            exact hs₁nodup
  · intro hpresent
    have hrec : RecordTransaction s none zap.zapEventId zap.amountSats zap.senderNpub =
        .error .uniqueViolation := by
      simp only [RecordTransaction, if_pos hpresent]
    refine ⟨hrec, ?_, ?_⟩
    · intro c hc
      simp only [ProcessZap, hc, hrec]
    · simp only [applyProcessZap, ProcessZap]
      cases hcust : GetCustomerByNpub s zap.senderNpub with
      | error e => rfl
      | ok customer => rw [hrec]

/-- Witness for C3: replaying zap id `zap1` against `zapLedger`. -/
theorem at_most_once_zap_credit_witness :
    RecordTransaction zapLedger none "zap1" 3500 "npub1alice" =
        .error .uniqueViolation ∧
      ProcessZap zapLedger replayedZap = .error .duplicateZap ∧
      applyProcessZap zapLedger replayedZap = zapLedger := by
  have h := (at_most_once_zap_credit zapLedger replayedZap (by decide)).2 (by decide)
  exact ⟨h.1, h.2.1 { id := 1, npub := "npub1alice" } rfl, h.2.2⟩

/-! ## Order FSM closure (C4) -/

lemma statusReachable_refl (a : OrderStatus) : statusReachable a a = true := by
  cases a <;> rfl

lemma statusReachable_trans : ∀ a b c : OrderStatus,
    statusReachable a b = true → statusReachable b c = true →
      statusReachable a c = true := by
  decide

lemma inferOrderEvent_reachable : ∀ a b : OrderStatus,
    (inferOrderEvent a b).isSome = true → statusReachable a b = true := by
  decide

/-- `find?` commutes with mapping an id-preserving row update. -/
lemma find?_map_pred (l : List Order) (f : Order → Order)
    (hf : ∀ o, (f o).id = o.id) (oid : Nat) :
    (l.map f).find? (fun o => o.id == oid) =
      (l.find? (fun o => o.id == oid)).map f := by
  induction l with
  | nil => rfl
  | cons c t ih =>
    rw [List.map_cons]
    by_cases hc : (c.id == oid) = true
    · have h1 : ((f c).id == oid) = true := by rw [hf]; exact hc
      rw [List.find?_cons, List.find?_cons, h1, hc]
      rfl
    · have hc' : (c.id == oid) = false := by simpa using hc
      have h1 : ((f c).id == oid) = false := by rw [hf]; exact hc'
      rw [List.find?_cons, List.find?_cons, h1, hc']
      exact ih

/-- A status update tracks through `find?`: the first row with a given id
after `setStatus` is the old first row, updated iff its id is the target. -/
lemma find?_setStatus (l : List Order) (tid : Nat) (st : OrderStatus) (oid : Nat) :
    (setStatus l tid st).find? (fun o => o.id == oid) =
      (l.find? (fun o => o.id == oid)).map
        (fun o => if o.id == tid then { o with status := st } else o) := by
  exact find?_map_pred l
    (fun o => if o.id == tid then { o with status := st } else o)
    (fun o => by dsimp only; split <;> rfl) oid

lemma findOrder_id (s : Ledger) (oid : Nat) (o : Order)
    (h : findOrder s oid = some o) : o.id = oid := by
  have := List.find?_some h
  simpa using this

/-- Case equations for `UpdateOrderStatus`. -/
lemma updateOrderStatus_notFound (s : Ledger) (tid : Nat) (ns : OrderStatus)
    (h : findOrder s tid = none) :
    UpdateOrderStatus s tid ns = .error .orderNotFound := by
  simp only [UpdateOrderStatus, h]

lemma updateOrderStatus_noEvent (s : Ledger) (tid : Nat) (ns : OrderStatus) (ot : Order)
    (h : findOrder s tid = some ot) (h2 : inferOrderEvent ot.status ns = none) :
    UpdateOrderStatus s tid ns = .error .invalidStateTransition := by
  simp only [UpdateOrderStatus, h, h2]

/-- When `inferOrderEvent` yields an event, the FSM admits it. -/
lemma inferOrderEvent_can : ∀ a b : OrderStatus, ∀ e : OrderEvent,
    inferOrderEvent a b = some e → CanTransition a e = true := by
  decide

lemma updateOrderStatus_ok (s : Ledger) (tid : Nat) (ns : OrderStatus) (ot : Order)
    (e : OrderEvent) (h : findOrder s tid = some ot)
    (h2 : inferOrderEvent ot.status ns = some e) :
    UpdateOrderStatus s tid ns = .ok { s with orders := setStatus s.orders tid ns } := by
  simp only [UpdateOrderStatus, h, h2, if_pos (inferOrderEvent_can ot.status ns e h2)]

/-- Case equations for `FulfillOrder`. -/
lemma fulfillOrder_notFound (s : Ledger) (tid : Nat)
    (h : findOrder s tid = none) :
    FulfillOrder s tid = .error .orderNotFound := by
  simp only [FulfillOrder, h]

lemma fulfillOrder_notPaid (s : Ledger) (tid : Nat) (ot : Order)
    (h : findOrder s tid = some ot) (h2 : ot.status ≠ .paid) :
    FulfillOrder s tid = .error .invalidStateTransition := by
  have hcan : ¬ CanTransition ot.status .fulfill = true := fun hc =>
    h2 ((canTransition_fulfill_iff ot.status).mp hc)
  simp only [FulfillOrder, h, if_neg hcan]

lemma fulfillOrder_ok (s : Ledger) (tid : Nat) (ot : Order)
    (h : findOrder s tid = some ot) (h2 : ot.status = .paid) :
    FulfillOrder s tid = .ok { s with orders := setStatus s.orders tid .fulfilled } := by
  have hcan : CanTransition ot.status .fulfill = true :=
    (canTransition_fulfill_iff ot.status).mpr h2
  simp only [FulfillOrder, h, if_pos hcan, if_pos h2]

/-- Case equations for `CancelOrder`. -/
lemma cancelOrder_notFound (s : Ledger) (tid : Nat)
    (h : findOrder s tid = none) :
    CancelOrder s tid = .error .orderNotFound := by
  simp only [CancelOrder, h]

lemma cancelOrder_notPending (s : Ledger) (tid : Nat) (ot : Order)
    (h : findOrder s tid = some ot) (h2 : ot.status ≠ .pending) :
    CancelOrder s tid = .error .orderNotPending := by
  have hcan : ¬ CanTransition ot.status .cancel = true := fun hc =>
    h2 ((canTransition_cancel_iff ot.status).mp hc)
  simp only [CancelOrder, h, if_neg hcan]

lemma cancelOrder_ok (s : Ledger) (tid : Nat) (ot : Order)
    (h : findOrder s tid = some ot) (h2 : ot.status = .pending) :
    CancelOrder s tid = .ok { s with
      eggsAvailable := s.eggsAvailable + ot.quantity,
      orders := setStatus s.orders tid .cancelled } := by
  have hcan : CanTransition ot.status .cancel = true :=
    (canTransition_cancel_iff ot.status).mpr h2
  simp only [CancelOrder, h, if_pos hcan]

/-- Tracking a row id through a successful `setStatus`-based update. -/
lemma find?_setStatus_self (s : Ledger) (oid : Nat) (o : Order) (st : OrderStatus)
    (hf : findOrder s oid = some o) (hid : o.id = oid) :
    (setStatus s.orders oid st).find? (fun x => x.id == oid) =
      some { o with status := st } := by
  have hf' : s.orders.find? (fun x => x.id == oid) = some o := hf
  rw [find?_setStatus, hf']
  simp [hid]

lemma find?_setStatus_other (s : Ledger) (oid tid : Nat) (o : Order) (st : OrderStatus)
    (hf : findOrder s oid = some o) (hid : o.id = oid) (hne : oid ≠ tid) :
    (setStatus s.orders tid st).find? (fun x => x.id == oid) = some o := by
  have hf' : s.orders.find? (fun x => x.id == oid) = some o := hf
  rw [find?_setStatus, hf']
  have : (o.id == tid) = false := by simp [hid]; exact hne
  simp [this]
  intro h
  exact absurd (by rw [← hid]; exact h) hne

/-- One public call moves a tracked order's status only along the FSM
reachability relation. -/
lemma applyLedgerCall_reachable (s : Ledger) (c : LedgerCall) (oid : Nat) (o : Order)
    (hf : findOrder s oid = some o) :
    ∃ o', findOrder (applyLedgerCall s c) oid = some o' ∧
      statusReachable o.status o'.status = true := by
  have hid : o.id = oid := findOrder_id s oid o hf
  cases c with
  | updateStatus tid ns =>
    cases hft : findOrder s tid with
    | none =>
      simp only [applyLedgerCall, updateOrderStatus_notFound s tid ns hft]
      exact ⟨o, hf, statusReachable_refl o.status⟩
    | some ot =>
      cases hinf : inferOrderEvent ot.status ns with
      | none =>
        simp only [applyLedgerCall, updateOrderStatus_noEvent s tid ns ot hft hinf]
        exact ⟨o, hf, statusReachable_refl o.status⟩
      | some e =>
        simp only [applyLedgerCall, updateOrderStatus_ok s tid ns ot e hft hinf]
        by_cases hoid : oid = tid
        · subst hoid
          have hoto : ot = o := by rw [hft] at hf; injection hf
          subst hoto
          exact ⟨{ ot with status := ns }, find?_setStatus_self s oid ot ns hf hid,
            inferOrderEvent_reachable ot.status ns (by rw [hinf]; rfl)⟩
        · exact ⟨o, find?_setStatus_other s oid tid o ns hf hid hoid,
            statusReachable_refl o.status⟩
  | fulfill tid =>
    cases hft : findOrder s tid with
    | none =>
      simp only [applyLedgerCall, fulfillOrder_notFound s tid hft]
      exact ⟨o, hf, statusReachable_refl o.status⟩
    | some ot =>
      by_cases hpaid : ot.status = .paid
      · simp only [applyLedgerCall, fulfillOrder_ok s tid ot hft hpaid]
        by_cases hoid : oid = tid
        · subst hoid
          have hoto : ot = o := by rw [hft] at hf; injection hf
          subst hoto
          exact ⟨{ ot with status := .fulfilled },
            find?_setStatus_self s oid ot .fulfilled hf hid, by rw [hpaid]; rfl⟩
        · exact ⟨o, find?_setStatus_other s oid tid o .fulfilled hf hid hoid,
            statusReachable_refl o.status⟩
      · simp only [applyLedgerCall, fulfillOrder_notPaid s tid ot hft hpaid]
        exact ⟨o, hf, statusReachable_refl o.status⟩
  | cancel tid =>
    cases hft : findOrder s tid with
    | none =>
      simp only [applyLedgerCall, cancelOrder_notFound s tid hft]
      exact ⟨o, hf, statusReachable_refl o.status⟩
    | some ot =>
      by_cases hpend : ot.status = .pending
      · simp only [applyLedgerCall, cancelOrder_ok s tid ot hft hpend]
        by_cases hoid : oid = tid
        · subst hoid
          have hoto : ot = o := by rw [hft] at hf; injection hf
          subst hoto
          exact ⟨{ ot with status := .cancelled },
            find?_setStatus_self s oid ot .cancelled hf hid, by rw [hpend]; rfl⟩
        · exact ⟨o, find?_setStatus_other s oid tid o .cancelled hf hid hoid,
            statusReachable_refl o.status⟩
      · simp only [applyLedgerCall, cancelOrder_notPending s tid ot hft hpend]
        exact ⟨o, hf, statusReachable_refl o.status⟩

lemma runLedgerCalls_reachable (calls : List LedgerCall) :
    ∀ s oid o, findOrder s oid = some o →
      ∃ o', findOrder (runLedgerCalls s calls) oid = some o' ∧
        statusReachable o.status o'.status = true := by
  induction calls with
  | nil => intro s oid o hf; exact ⟨o, hf, statusReachable_refl o.status⟩
  | cons c cs ih =>
    intro s oid o hf
    obtain ⟨o₁, hf₁, hr₁⟩ := applyLedgerCall_reachable s c oid o hf
    obtain ⟨o₂, hf₂, hr₂⟩ := ih (applyLedgerCall s c) oid o₁ hf₁
    exact ⟨o₂, hf₂, statusReachable_trans o.status o₁.status o₂.status hr₁ hr₂⟩

lemma statusReachable_terminal : ∀ a b : OrderStatus,
    (a = .fulfilled ∨ a = .cancelled) → statusReachable a b = true → b = a := by
  decide

/-- C4 (amended) — Order state-machine closure: under any sequence of
public ledger calls (`UpdateOrderStatus`, `FulfillOrder`, `CancelOrder`)
an order's status moves only along `pending→paid→fulfilled` /
`pending→cancelled`; a requested transition outside these edges fails —
with `InvalidStateTransition` via `UpdateOrderStatus` (in particular
direct `pending→fulfilled`) or `FulfillOrder`, and with
`OrderNotPending` via `CancelOrder` of a non-pending order — and
`fulfilled` and `cancelled` are terminal: no call changes the status. -/
theorem order_fsm_closure (s : Ledger) (oid : Nat) (o : Order)
    (hf : findOrder s oid = some o) :
    (∀ calls : List LedgerCall, ∃ o',
        findOrder (runLedgerCalls s calls) oid = some o' ∧
        statusReachable o.status o'.status = true) ∧
    (o.status = .pending →
        UpdateOrderStatus s oid .fulfilled = .error .invalidStateTransition) ∧
    (∀ ns, inferOrderEvent o.status ns = none →
        UpdateOrderStatus s oid ns = .error .invalidStateTransition) ∧
    (o.status ≠ .paid → FulfillOrder s oid = .error .invalidStateTransition) ∧
    (o.status ≠ .pending → CancelOrder s oid = .error .orderNotPending) ∧
    ((o.status = .fulfilled ∨ o.status = .cancelled) →
        ∀ c : LedgerCall, ∃ o',
          findOrder (applyLedgerCall s c) oid = some o' ∧ o'.status = o.status) := by
  refine ⟨fun calls => runLedgerCalls_reachable calls s oid o hf, ?_, ?_, ?_, ?_, ?_⟩
  · intro hpend
    exact updateOrderStatus_noEvent s oid .fulfilled o hf (by rw [hpend]; rfl)
  · intro ns hns
    exact updateOrderStatus_noEvent s oid ns o hf hns
  · intro hnp
    exact fulfillOrder_notPaid s oid o hf hnp
  · intro hnp
    exact cancelOrder_notPending s oid o hf hnp
  · intro hterm c
    obtain ⟨o', hf', hr⟩ := applyLedgerCall_reachable s c oid o hf
    exact ⟨o', hf', statusReachable_terminal o.status o'.status hterm hr⟩

/-- Counterexample to C4 as stated: `CancelOrder` of a `paid` order is a
requested transition outside the FSM edges, but it fails with
`OrderNotPending`, not with `InvalidStateTransition`. -/
theorem order_fsm_cancel_error_counterexample :
    CancelOrder paidLedger 1 = .error .orderNotPending ∧
      DBError.orderNotPending ≠ DBError.invalidStateTransition :=
  ⟨rfl, by decide⟩

/-- Witness for C4 (amended) at concrete ledgers. -/
theorem order_fsm_closure_witness :
    UpdateOrderStatus zapLedger 1 .fulfilled = .error .invalidStateTransition ∧
      CancelOrder paidLedger 1 = .error .orderNotPending :=
  ⟨(order_fsm_closure zapLedger 1
      { id := 1, customerId := 1, quantity := 6, totalSats := 3200,
        status := .pending } rfl).2.1 rfl,
   (order_fsm_closure paidLedger 1
      { id := 1, customerId := 1, quantity := 6, totalSats := 3200,
        status := .paid } rfl).2.2.2.2.1 (by decide)⟩

/-! ## Automatic payment application (C5) -/

/-- With unique ids, `find?` at a member's id returns that member. -/
lemma find?_eq_of_mem_nodup (l : List Order) (hn : (l.map (fun x => x.id)).Nodup)
    (o : Order) (ho : o ∈ l) : l.find? (fun x => x.id == o.id) = some o := by
  induction l with
  | nil => simp at ho
  | cons c t ih =>
    simp only [List.map_cons, List.nodup_cons] at hn
    rcases List.mem_cons.mp ho with rfl | hot
    · rw [List.find?_cons_of_pos _ (by simp)]
    · have hne : (c.id == o.id) = false := by
        simp only [beq_eq_false_iff_ne, ne_eq]
        intro hce
        exact hn.1 (List.mem_map.mpr ⟨o, hot, hce.symm⟩)
      rw [List.find?_cons_of_neg _ (by simp [hne]), ih hn.2 hot]

/-- A `setStatus` at one id leaves lookups of every other id unchanged. -/
lemma findOrder_setStatus_ne (s : Ledger) (tid i : Nat) (st : OrderStatus)
    (hne : i ≠ tid) :
    (setStatus s.orders tid st).find? (fun x => x.id == i) =
      s.orders.find? (fun x => x.id == i) := by
  rw [find?_setStatus]
  cases hfi : s.orders.find? (fun x => x.id == i) with
  | none => rfl
  | some o =>
    have hio : o.id = i := by
      have := List.find?_some hfi
      simpa using this
    simp [hio, hne]

/-- C5 — A zap marks at most one order paid: once the transaction is
recorded, `ProcessZap` looks only at the sender's oldest pending order
(the last element of the newest-first pending list); it marks exactly
that order paid iff the running balance covers its `total_sats`, and
every other order keeps its status. -/
theorem zap_auto_payment (s : Ledger) (zap : ValidatedZap) (c : CustomerRow)
    (hwf : wfLedger s = true)
    (hcust : GetCustomerByNpub s zap.senderNpub = .ok c)
    (hfresh : s.txns.any (fun t => t.zapEventId == zap.zapEventId) = false) :
    (GetPendingOrdersByCustomer (recordedLedger s zap) c.id = [] →
        ProcessZap s zap =
          .ok (recordedLedger s zap,
               { customerFound := true, amountSats := zap.amountSats })) ∧
    (∀ oldest,
        (GetPendingOrdersByCustomer (recordedLedger s zap) c.id).getLast? =
            some oldest →
        (GetCustomerBalance (recordedLedger s zap) zap.senderNpub ≥
              oldest.totalSats →
            ProcessZap s zap =
              .ok (paidMarkedLedger s zap oldest.id,
                   { customerFound := true, amountSats := zap.amountSats }) ∧
            findOrder (paidMarkedLedger s zap oldest.id) oldest.id =
              some { oldest with status := .paid } ∧
            (∀ i, i ≠ oldest.id →
                findOrder (paidMarkedLedger s zap oldest.id) i =
                  findOrder (recordedLedger s zap) i)) ∧
        (GetCustomerBalance (recordedLedger s zap) zap.senderNpub <
              oldest.totalSats →
            ProcessZap s zap =
              .ok (recordedLedger s zap,
                   { customerFound := true, amountSats := zap.amountSats }))) := by
  have hrec : RecordTransaction s none zap.zapEventId zap.amountSats zap.senderNpub =
      .ok (recordedLedger s zap,
           { orderId := none, zapEventId := zap.zapEventId,
             amountSats := zap.amountSats, senderNpub := zap.senderNpub }) := by
    simp only [RecordTransaction, hfresh]
    rfl
  constructor
  · intro hempty
    simp only [ProcessZap, hcust, hrec, hempty]
    rfl
  · intro oldest hget
    have hmem : oldest ∈ GetPendingOrdersByCustomer (recordedLedger s zap) c.id :=
      List.mem_of_mem_getLast? hget
    have hmem' : oldest ∈ s.orders ∧ oldest.status = .pending := by
      simp only [GetPendingOrdersByCustomer, List.mem_reverse, List.mem_filter,
        Bool.and_eq_true, beq_iff_eq] at hmem
      exact ⟨hmem.1, hmem.2.2⟩
    have hnodup : (s.orders.map (fun x => x.id)).Nodup := by
      simp only [wfLedger, Bool.and_eq_true, decide_eq_true_eq] at hwf
      exact hwf.1
    have hfind : findOrder (recordedLedger s zap) oldest.id = some oldest :=
      find?_eq_of_mem_nodup s.orders hnodup oldest hmem'.1
    have hfinds : findOrder s oldest.id = some oldest := hfind
    constructor
    · intro hbal
      have hupd : UpdateOrderStatus (recordedLedger s zap) oldest.id .paid =
          .ok (paidMarkedLedger s zap oldest.id) :=
        updateOrderStatus_ok (recordedLedger s zap) oldest.id .paid oldest .pay
          hfind (by rw [hmem'.2]; rfl)
      refine ⟨?_, ?_, ?_⟩
      · simp only [ProcessZap, hcust, hrec, hget, if_pos hbal, hupd]
      · exact find?_setStatus_self s oldest.id oldest .paid hfinds rfl
      · intro i hi
        exact findOrder_setStatus_ne s oldest.id i .paid hi
    · intro hbal
      have hnb : ¬ GetCustomerBalance (recordedLedger s zap) zap.senderNpub ≥
          oldest.totalSats := not_le.mpr hbal
      simp only [ProcessZap, hcust, hrec, hget, if_neg hnb]

/-- Witness for C5: the zap marks only the oldest pending order (id 1)
paid although its amount would cover both. -/
theorem zap_auto_payment_witness :
    ProcessZap autoPayLedger autoPayZap =
      .ok (paidMarkedLedger autoPayLedger autoPayZap 1,
           { customerFound := true, amountSats := 10000 }) ∧
    findOrder (paidMarkedLedger autoPayLedger autoPayZap 1) 1 =
      some { id := 1, customerId := 1, quantity := 6, totalSats := 3200,
             status := .paid } ∧
    (∀ i, i ≠ 1 →
        findOrder (paidMarkedLedger autoPayLedger autoPayZap 1) i =
          findOrder (recordedLedger autoPayLedger autoPayZap) i) := by
  have h := ((zap_auto_payment autoPayLedger autoPayZap
      { id := 1, npub := "npub1alice" } (by decide) rfl (by decide)).2
    { id := 1, customerId := 1, quantity := 6, totalSats := 3200,
      status := .pending } rfl).1 (by decide)
  exact ⟨h.1, h.2.1, h.2.2⟩

/-! ## Character-list string helpers -/

set_option maxHeartbeats 2000000 in
/-- C10 — The `adjust` synthetic id depends only on the amount: after a
successful `adjust npub₁ astr`, any `adjust npub₂ astr` with the same
amount string — even for a different, valid, registered customer —
computes the same `adjust-<sats>` id, so `RecordTransaction` hits the
UNIQUE constraint, the command fails with the recording error, and no
transaction row is inserted. -/
theorem adjust_event_id_collision
    (decodeOk : String → Bool) (s : Ledger) (npub₁ npub₂ astr : String)
    (s₁ : Ledger) (msg : String)
    (h₁ : AdjustCmd decodeOk s [npub₁, astr] = .ok (s₁, msg))
    (hpfx : goHasPrefix npub₂ "npub1" = true)
    (hdec : decodeOk npub₂ = true)
    (hcust : ∃ c, GetCustomerByNpub s₁ npub₂ = .ok c) :
    AdjustCmd decodeOk s₁ [npub₂, astr] = .error "recording adjustment" ∧
    applyAdjustCmd decodeOk s₁ [npub₂, astr] = s₁ ∧
    (∃ a, goParseInt64 astr.data = .ok a ∧
        s₁.txns.any (fun t => t.zapEventId == ("adjust-" ++ toString a)) = true ∧
        RecordTransaction s₁ none ("adjust-" ++ toString a) a npub₂ =
          .error .uniqueViolation) := by
  simp only [AdjustCmd] at h₁
  split at h₁
  · rename_i hpfx₁
    split at h₁
    · exact Except.noConfusion h₁
    · rename_i amount hparse
      split at h₁
      · rename_i hdec₁
        split at h₁
        · exact Except.noConfusion h₁
        · rename_i c₁ hcust₁
          split at h₁
          · exact Except.noConfusion h₁
          · rename_i s₁' t₁ hrec₁
            obtain ⟨hfresh₁, ht₁, hs₁'⟩ := recordTransaction_ok s none
              ("adjust-" ++ toString amount) amount npub₁ s₁' t₁ hrec₁
            have hs₁eq : s₁' = s₁ := by
              split at h₁ <;>
                · injection h₁ with hp
                  exact congrArg Prod.fst hp
            rw [hs₁eq] at hs₁'
            have hany : s₁.txns.any
                (fun t => t.zapEventId == ("adjust-" ++ toString amount)) = true := by
              rw [hs₁', List.any_eq_true]
              refine ⟨t₁, List.mem_append_right _ (List.mem_singleton_self t₁), ?_⟩
              rw [ht₁]
              exact beq_self_eq_true _
            have hrec₂ : RecordTransaction s₁ none ("adjust-" ++ toString amount)
                amount npub₂ = .error .uniqueViolation := by
              simp only [RecordTransaction, if_pos hany]
            obtain ⟨c₂, hc₂⟩ := hcust
            have hcmd : AdjustCmd decodeOk s₁ [npub₂, astr] =
                .error "recording adjustment" := by
              simp only [AdjustCmd, if_pos hpfx, hparse, if_pos hdec, hc₂, hrec₂]
            refine ⟨hcmd, ?_, ?_⟩
            · simp only [applyAdjustCmd, hcmd]
            · exact ⟨amount, hparse, hany, hrec₂⟩
      · exact Except.noConfusion h₁
  · exact Except.noConfusion h₁

/-- Witness for C10: `adjust npub1alice 500` then `adjust npub1bob 500`. -/
theorem adjust_event_id_collision_witness :
    AdjustCmd (fun _ => true) adjLedger ["npub1alice", "500"] =
      .ok (adjLedgerAfter, "Added 500 sats to npub1alice") ∧
    AdjustCmd (fun _ => true) adjLedgerAfter ["npub1bob", "500"] =
      .error "recording adjustment" ∧
    applyAdjustCmd (fun _ => true) adjLedgerAfter ["npub1bob", "500"] =
      adjLedgerAfter := by
  have h₁ : AdjustCmd (fun _ => true) adjLedger ["npub1alice", "500"] =
      .ok (adjLedgerAfter, "Added 500 sats to npub1alice") := by rfl
  have h := adjust_event_id_collision (fun _ => true) adjLedger
    "npub1alice" "npub1bob" "500" adjLedgerAfter "Added 500 sats to npub1alice"
    h₁ rfl rfl ⟨{ id := 2, npub := "npub1bob" }, rfl⟩
  exact ⟨h₁, h.1, h.2.1⟩

/-! ## bolt11 amount extraction (internal/zaps validator, C8) -/

lemma isDigit_ne (c x : Char) (h : c.isDigit = true) (hx : x.isDigit = false) :
    c ≠ x := by
  intro he
  rw [he] at h
  rw [h] at hx
  exact Bool.noConfusion hx

lemma goParseDigits_ok (ds : List Char) (hne : ds ≠ [])
    (hdig : ds.all Char.isDigit = true) (hb : digitsVal 0 ds ≤ 2 ^ 63 - 1) :
    goParseDigits false ds = .ok ((digitsVal 0 ds : Nat) : Int) := by
  unfold goParseDigits
  rw [if_neg hne, if_pos hdig]
  simp only [Bool.false_eq_true, if_false]
  rw [if_pos hb]

lemma goParseInt64_digits (ds : List Char) (hne : ds ≠ [])
    (hdig : ds.all Char.isDigit = true) (hb : digitsVal 0 ds ≤ 2 ^ 63 - 1) :
    goParseInt64 ds = .ok ((digitsVal 0 ds : Nat) : Int) := by
  cases ds with
  | nil => exact absurd rfl hne
  | cons d rest =>
    have hd : d.isDigit = true := by
      rw [List.all_cons, Bool.and_eq_true] at hdig
      exact hdig.1
    have h1 : (d == '+') = false := by
      simp only [beq_eq_false_iff_ne, ne_eq]
      exact isDigit_ne d '+' hd (by decide)
    have h2 : (d == '-') = false := by
      simp only [beq_eq_false_iff_ne, ne_eq]
      exact isDigit_ne d '-' hd (by decide)
    unfold goParseInt64
    simp only [h1, h2, Bool.false_eq_true, if_false]
    exact goParseDigits_ok _ hne hdig hb

lemma findIdx?_append_hit (A B : List Char) (hA : '1' ∉ A) :
    ∀ i, (A ++ '1' :: B).findIdx? (fun c => c == '1') i = some (i + A.length) := by
  induction A with
  | nil => intro i; simp [List.findIdx?_cons]
  | cons a A' ih =>
    intro i
    have ha : (a == '1') = false := by
      simp only [beq_eq_false_iff_ne, ne_eq]
      intro h
      exact hA (by rw [h]; exact List.mem_cons_self _ _)
    rw [List.cons_append, List.findIdx?_cons, if_neg (by simp [ha]),
      ih (fun h => hA (List.mem_cons_of_mem _ h)) (i + 1)]
    simp only [Option.some.injEq, List.length_cons]
    omega

lemma lastIndexOf1_structured (X rest : List Char) (h : '1' ∉ rest) :
    lastIndexOf1 (X ++ '1' :: rest) = some X.length := by
  unfold lastIndexOf1
  have hrev : (X ++ '1' :: rest).reverse = rest.reverse ++ '1' :: X.reverse := by
    rw [List.reverse_append, List.reverse_cons]
    simp [List.append_assoc]
  rw [hrev, findIdx?_append_hit _ _ (fun hm => h (List.mem_reverse.mp hm)) 0]
  simp only [Option.some.injEq, List.length_append, List.length_cons,
    List.length_reverse]
  omega

lemma int64Wrap_of_lt (n : Int) (h0 : 0 ≤ n) (h1 : n < 2 ^ 63) :
    int64Wrap n = n := by
  unfold int64Wrap
  omega

lemma multMsats_nonneg (mult : Option Bolt11Mult) : 0 ≤ multMsats mult := by
  rcases mult with _ | μ
  · norm_num [multMsats]
  · cases μ <;> norm_num [multMsats]

/-- Evaluation of the post-`ToLower` pipeline on a structured invoice,
given the resolved amount start offset. -/
lemma extractFromLowered_spec (pfx ds rest : List Char) (mult : Option Bolt11Mult)
    (hne : ds ≠ []) (hdig : ds.all Char.isDigit = true) (hrest : '1' ∉ rest)
    (hb : digitsVal 0 ds ≤ 2 ^ 63 - 1)
    (hprod : (digitsVal 0 ds : Int) * multMsats mult < 2 ^ 63)
    (hstart :
      (if listIsPrefixOf ['l', 'n', 'b', 'c', 'r', 't']
            (pfx ++ ds ++ (mult.map multChar).toList ++ '1' :: rest) then some 6
        else if listIsPrefixOf ['l', 'n', 'b', 'c']
            (pfx ++ ds ++ (mult.map multChar).toList ++ '1' :: rest) then some 4
        else if listIsPrefixOf ['l', 'n', 't', 'b']
            (pfx ++ ds ++ (mult.map multChar).toList ++ '1' :: rest) then some 4
        else none) = some pfx.length) :
    extractFromLowered (pfx ++ ds ++ (mult.map multChar).toList ++ '1' :: rest) =
      .ok ((digitsVal 0 ds : Int) * multMsats mult) := by
  have hvnn : (0 : Int) ≤ (digitsVal 0 ds : Int) * multMsats mult :=
    mul_nonneg (Int.natCast_nonneg _) (multMsats_nonneg mult)
  cases mult with
  | none =>
    simp only [Option.map_none', Option.toList_none, List.append_nil] at hstart ⊢
    have hassoc : pfx ++ ds ++ '1' :: rest = (pfx ++ ds) ++ '1' :: rest := by
      simp [List.append_assoc]
    have hsep : ¬ ((pfx ++ ds).length ≤ pfx.length) := by
      rcases List.exists_cons_of_ne_nil hne with ⟨d, ds', rfl⟩
      simp [List.length_append]
    have hpart : ((((pfx ++ ds) ++ '1' :: rest).drop pfx.length).take
        ((pfx ++ ds).length - pfx.length)) = ds := by
      rw [show ((pfx ++ ds) ++ '1' :: rest) = pfx ++ (ds ++ '1' :: rest) from by
        simp [List.append_assoc]]
      rw [List.drop_left]
      rw [show (pfx ++ ds).length - pfx.length = ds.length from by
        simp [List.length_append]]
      rw [show ds ++ '1' :: rest = ds ++ '1' :: rest from rfl,
        List.take_left]
    obtain ⟨lc, hlc⟩ : ∃ lc, ds.getLast? = some lc :=
      Option.isSome_iff_exists.mp (List.getLast?_isSome.mpr hne)
    have hlcdig : lc.isDigit = true := by
      rw [List.all_eq_true] at hdig
      exact hdig lc (List.mem_of_mem_getLast? hlc)
    have hparse := goParseInt64_digits ds hne hdig hb
    have hwrap := int64Wrap_of_lt _ hvnn hprod
    simp only [extractFromLowered, hstart, hassoc,
      lastIndexOf1_structured (pfx ++ ds) rest hrest, if_neg hsep, hpart, hlc,
      if_pos hlcdig, hparse, multMsats] at hwrap ⊢
    rw [hwrap]
  | some μ =>
    simp only [Option.map_some', Option.toList_some] at hstart ⊢
    have hassoc : pfx ++ ds ++ [multChar μ] ++ '1' :: rest =
        (pfx ++ ds ++ [multChar μ]) ++ '1' :: rest := by
      simp [List.append_assoc]
    have hsep : ¬ ((pfx ++ ds ++ [multChar μ]).length ≤ pfx.length) := by
      simp [List.length_append]
    have hpart : ((((pfx ++ ds ++ [multChar μ]) ++ '1' :: rest).drop pfx.length).take
        ((pfx ++ ds ++ [multChar μ]).length - pfx.length)) = ds ++ [multChar μ] := by
      rw [show ((pfx ++ ds ++ [multChar μ]) ++ '1' :: rest) =
          pfx ++ ((ds ++ [multChar μ]) ++ '1' :: rest) from by
        simp [List.append_assoc]]
      rw [List.drop_left]
      rw [show (pfx ++ ds ++ [multChar μ]).length - pfx.length =
          (ds ++ [multChar μ]).length from by simp [List.length_append]]
      rw [List.take_left]
    have hlast : (ds ++ [multChar μ]).getLast? = some (multChar μ) := by
      rw [List.getLast?_append_of_ne_nil ds (by simp)]
      rfl
    have hlcdig : (multChar μ).isDigit = false := by cases μ <;> decide
    have hmof : multOfChar (multChar μ) = some (multMsats (some μ)) := by
      cases μ <;> rfl
    have hparse := goParseInt64_digits ds hne hdig hb
    have hwrap := int64Wrap_of_lt _ hvnn hprod
    simp only [extractFromLowered, hstart, hassoc,
      lastIndexOf1_structured (pfx ++ ds ++ [multChar μ]) rest hrest,
      if_neg hsep, hpart, hlast, hlcdig, Bool.false_eq_true, if_false, hmof,
      List.dropLast_concat, hparse] at hwrap ⊢
    rw [hwrap]

/-- C8 (amended) — bolt11 amount: for a lowercase invoice
`<prefix><digits><multiplier?>1<data>` with a recognized network prefix
and no `1` in the data part, the extracted millisatoshi amount is the
decimal value times 10⁸ / 10⁵ / 10² msat for `m`/`u`/`n`, times
10¹¹ msat (whole BTC) with no letter — but 0 for `p` — and
`ValidateZapReceipt` divides by 1000 with truncation to get satoshi
(stated for amounts within the signed 64-bit range). -/
theorem bolt11_amount_extraction (pfx ds rest : List Char) (mult : Option Bolt11Mult)
    (hpfx : pfx = ['l', 'n', 'b', 'c'] ∨ pfx = ['l', 'n', 't', 'b'] ∨
      pfx = ['l', 'n', 'b', 'c', 'r', 't'])
    (hne : ds ≠ []) (hdig : ds.all Char.isDigit = true)
    (hrest : '1' ∉ rest)
    (hlow : (pfx ++ ds ++ (mult.map multChar).toList ++ '1' :: rest).map Char.toLower =
        pfx ++ ds ++ (mult.map multChar).toList ++ '1' :: rest)
    (hb : digitsVal 0 ds ≤ 2 ^ 63 - 1)
    (hprod : (digitsVal 0 ds : Int) * multMsats mult < 2 ^ 63) :
    extractAmountFromBolt11 (pfx ++ ds ++ (mult.map multChar).toList ++ '1' :: rest) =
      .ok ((digitsVal 0 ds : Int) * multMsats mult) ∧
    zapAmountSats (pfx ++ ds ++ (mult.map multChar).toList ++ '1' :: rest) =
      .ok (Int.tdiv ((digitsVal 0 ds : Int) * multMsats mult) 1000) := by
  have hmain : extractAmountFromBolt11
      (pfx ++ ds ++ (mult.map multChar).toList ++ '1' :: rest) =
      .ok ((digitsVal 0 ds : Int) * multMsats mult) := by
    unfold extractAmountFromBolt11
    rw [hlow]
    obtain ⟨d, ds', rfl⟩ := List.exists_cons_of_ne_nil hne
    have hd : d.isDigit = true := by
      rw [List.all_cons, Bool.and_eq_true] at hdig
      exact hdig.1
    have hrd : ('r' == d) = false := by
      simp only [beq_eq_false_iff_ne, ne_eq]
      exact fun h => (isDigit_ne d 'r' hd (by decide)) h.symm
    rcases hpfx with rfl | rfl | rfl
    · have h6 : listIsPrefixOf ['l', 'n', 'b', 'c', 'r', 't']
          (['l', 'n', 'b', 'c'] ++ (d :: ds') ++ (mult.map multChar).toList ++
            '1' :: rest) = false := by
        simp [listIsPrefixOf, hrd]
      have h4 : listIsPrefixOf ['l', 'n', 'b', 'c']
          (['l', 'n', 'b', 'c'] ++ (d :: ds') ++ (mult.map multChar).toList ++
            '1' :: rest) = true := by
        simp [listIsPrefixOf]
      exact extractFromLowered_spec ['l', 'n', 'b', 'c'] (d :: ds') rest mult
        hne hdig hrest hb hprod (by rw [h6, h4]; rfl)
    · have h6 : listIsPrefixOf ['l', 'n', 'b', 'c', 'r', 't']
          (['l', 'n', 't', 'b'] ++ (d :: ds') ++ (mult.map multChar).toList ++
            '1' :: rest) = false := by
        simp +decide [listIsPrefixOf]
      have h4 : listIsPrefixOf ['l', 'n', 'b', 'c']
          (['l', 'n', 't', 'b'] ++ (d :: ds') ++ (mult.map multChar).toList ++
            '1' :: rest) = false := by
        simp +decide [listIsPrefixOf]
      have htb : listIsPrefixOf ['l', 'n', 't', 'b']
          (['l', 'n', 't', 'b'] ++ (d :: ds') ++ (mult.map multChar).toList ++
            '1' :: rest) = true := by
        simp [listIsPrefixOf]
      exact extractFromLowered_spec ['l', 'n', 't', 'b'] (d :: ds') rest mult
        hne hdig hrest hb hprod (by rw [h6, h4, htb]; rfl)
    · have h6 : listIsPrefixOf ['l', 'n', 'b', 'c', 'r', 't']
          (['l', 'n', 'b', 'c', 'r', 't'] ++ (d :: ds') ++
            (mult.map multChar).toList ++ '1' :: rest) = true := by
        simp [listIsPrefixOf]
      exact extractFromLowered_spec ['l', 'n', 'b', 'c', 'r', 't'] (d :: ds') rest
        mult hne hdig hrest hb hprod (by rw [h6]; rfl)
  refine ⟨hmain, ?_⟩
  unfold zapAmountSats
  rw [hmain]

/-- Witness for C8: `lnbc3500u1qqq` — 3500 micro-BTC = 350 000 000 msat
= 350 000 sats. -/
theorem bolt11_amount_extraction_witness :
    extractAmountFromBolt11
        (['l', 'n', 'b', 'c'] ++ ['3', '5', '0', '0'] ++
          ((some Bolt11Mult.u).map multChar).toList ++ '1' :: ['q', 'q', 'q']) =
      .ok 350000000 ∧
    zapAmountSats
        (['l', 'n', 'b', 'c'] ++ ['3', '5', '0', '0'] ++
          ((some Bolt11Mult.u).map multChar).toList ++ '1' :: ['q', 'q', 'q']) =
      .ok 350000 := by
  have h := bolt11_amount_extraction ['l', 'n', 'b', 'c'] ['3', '5', '0', '0']
    ['q', 'q', 'q'] (some .u) (Or.inl rfl) (by decide) (by decide) (by decide)
    (by decide) (by decide) (by decide)
  constructor
  · rw [h.1]
    rfl
  · rw [h.2]
    rfl

/-- Counterexample to C8 as stated: for `lnbc10p1abc` the code extracts
0 msat, while 10 pico-BTC is 10·10¹¹/10¹² = 1 msat. -/
theorem bolt11_p_multiplier_counterexample :
    extractAmountFromBolt11 ("lnbc10p1abc".data) = .ok 0 ∧
      (10 * 10 ^ 11) / (10 ^ 12) = (1 : Int) ∧ (0 : Int) ≠ 1 :=
  ⟨rfl, by decide, by decide⟩

/-! ## Command parser (internal/commands, C9) -/

lemma splitNLAux_append (l : List Char) (hl : '\n' ∉ l) :
    ∀ (acc t : List Char),
      splitNLAux acc (l ++ '\n' :: t) = (acc.reverse ++ l) :: splitNL t := by
  induction l with
  | nil =>
    intro acc t
    simp [splitNLAux, splitNL]
  | cons c l' ih =>
    intro acc t
    have hcne : c ≠ '\n' := fun h => hl (by rw [h]; exact List.mem_cons_self _ _)
    have hl' : '\n' ∉ l' := fun h => hl (List.mem_cons_of_mem _ h)
    simp only [List.cons_append, splitNLAux, if_neg hcne, List.append_eq]
    rw [ih hl' (c :: acc)]
    simp

lemma splitNL_comment_drop (cs : List (List Char)) (body : List Char)
    (hc : ∀ l ∈ cs, '\n' ∉ l) :
    splitNL ((cs.map (fun l => l ++ ['\n'])).flatten ++ body) = cs ++ splitNL body := by
  induction cs with
  | nil => simp
  | cons l cs' ih =>
    have hstep : ((l :: cs').map (fun l => l ++ ['\n'])).flatten ++ body =
        l ++ '\n' :: ((cs'.map (fun l => l ++ ['\n'])).flatten ++ body) := by
      simp [List.append_assoc]
    rw [hstep]
    show splitNLAux [] (l ++ '\n' :: _) = _
    rw [splitNLAux_append l (hc l (List.mem_cons_self _ _)) []]
    rw [ih (fun x hx => hc x (List.mem_cons_of_mem _ hx))]
    simp

lemma strip_comment_drop (cs : List (List Char)) (body : List Char)
    (hc : ∀ l ∈ cs, '\n' ∉ l ∧ isCommentLine l = true) :
    stripMarkdownComments ((cs.map (fun l => l ++ ['\n'])).flatten ++ body) =
      stripMarkdownComments body := by
  unfold stripMarkdownComments
  rw [splitNL_comment_drop cs body (fun l hl => (hc l hl).1), List.filter_append]
  have hnil : cs.filter (fun l => !(isCommentLine l)) = [] := by
    rw [List.filter_eq_nil_iff]
    intro a ha
    simp [(hc a ha).2]
  rw [hnil, List.nil_append]

lemma head_dropWhile_false (p : Char → Bool) (l : List Char) :
    ∀ c t, l.dropWhile p = c :: t → p c = false := by
  induction l with
  | nil => intro c t h; simp [List.dropWhile] at h
  | cons a l' ih =>
    intro c t h
    by_cases ha : p a = true
    · rw [List.dropWhile_cons_of_pos ha] at h
      exact ih c t h
    · rw [List.dropWhile_cons_of_neg ha] at h
      injection h with h1 _
      rw [← h1]
      simpa using ha

lemma trimSpace_eq_nil_of_all (s : List Char) (h : s.all goIsSpace = true) :
    trimSpace s = [] := by
  unfold trimSpace
  have h1 : s.dropWhile goIsSpace = [] := by
    rw [List.dropWhile_eq_nil_iff]
    intro x hx
    rw [List.all_eq_true] at h
    exact h x hx
  rw [h1]
  rfl

lemma all_of_trimSpace_eq_nil (s : List Char) (h : trimSpace s = []) :
    s.all goIsSpace = true := by
  unfold trimSpace at h
  rw [List.reverse_eq_nil_iff, List.dropWhile_eq_nil_iff] at h
  rw [List.all_eq_true]
  intro x hx
  rw [← List.takeWhile_append_dropWhile goIsSpace s] at hx
  rcases List.mem_append.mp hx with hx | hx
  · exact List.mem_takeWhile_imp hx
  · exact h x (List.mem_reverse.mpr hx)

lemma trimSpace_head_not_space (s : List Char) (c : Char) (t : List Char)
    (h : trimSpace s = c :: t) : goIsSpace c = false := by
  unfold trimSpace at h
  have h2 : (s.dropWhile goIsSpace).reverse.dropWhile goIsSpace =
      t.reverse ++ [c] := by
    rw [← List.reverse_reverse ((s.dropWhile goIsSpace).reverse.dropWhile goIsSpace),
      h, List.reverse_cons]
  obtain ⟨w, hw⟩ := List.dropWhile_suffix (l := (s.dropWhile goIsSpace).reverse) goIsSpace
  rw [h2] at hw
  have hu2 : s.dropWhile goIsSpace = c :: (t ++ w.reverse) := by
    have hrev := congrArg List.reverse hw
    simpa [List.reverse_append] using hrev.symm
  exact head_dropWhile_false goIsSpace s c _ hu2

lemma fieldsAux_ne_nil (s : List Char) :
    ∀ acc : List Char, acc ≠ [] → fieldsAux acc s ≠ [] := by
  induction s with
  | nil =>
    intro acc h
    simp [fieldsAux, h]
  | cons c rest ih =>
    intro acc h
    by_cases hsp : goIsSpace c = true
    · simp only [fieldsAux, hsp, if_true, if_neg h]
      exact List.cons_ne_nil _ _
    · simp only [fieldsAux, hsp, Bool.false_eq_true, if_false]
      exact ih (c :: acc) (List.cons_ne_nil c acc)

lemma fields_trim_ne_nil (s : List Char) (h : trimSpace s ≠ []) :
    fields (trimSpace s) ≠ [] := by
  cases ht : trimSpace s with
  | nil => exact absurd ht h
  | cons c t =>
    have hcs : goIsSpace c = false := trimSpace_head_not_space s c t ht
    show fieldsAux [] (c :: t) ≠ []
    simp only [fieldsAux, hcs, Bool.false_eq_true, if_false]
    exact fieldsAux_ne_nil t [c] (List.cons_ne_nil c [])

lemma parse_none_iff (content : List Char) :
    Parse content = none ↔
      (stripMarkdownComments content).all goIsSpace = true := by
  unfold Parse
  constructor
  · intro h
    by_cases ht : trimSpace (stripMarkdownComments content) = []
    · exact all_of_trimSpace_eq_nil _ ht
    · exfalso
      rw [if_neg ht] at h
      cases hf : fields (trimSpace (stripMarkdownComments content)) with
      | nil => exact fields_trim_ne_nil _ ht hf
      | cons w ws =>
        rw [hf] at h
        exact Option.noConfusion h
  · intro h
    rw [if_pos (trimSpace_eq_nil_of_all _ h)]

/-- C9 — Parser markdown-strip law: prefixing a message with whole lines
that begin (after trimming) with `[//]:` does not change the parse, and
`Parse` returns nothing exactly when the text left after stripping those
lines is empty or white space only. -/
theorem parse_markdown_strip (commentLines : List (List Char)) (body : List Char)
    (hc : ∀ l ∈ commentLines, '\n' ∉ l ∧ isCommentLine l = true) :
    Parse ((commentLines.map (fun l => l ++ ['\n'])).flatten ++ body) = Parse body ∧
    (∀ content, Parse content = none ↔
        (stripMarkdownComments content).all goIsSpace = true) := by
  refine ⟨?_, parse_none_iff⟩
  unfold Parse
  rw [strip_comment_drop commentLines body hc]

/-- Witness for C9: `"[//]: # (nip18)\ninventory"` parses as `inventory`. -/
theorem parse_markdown_strip_witness :
    Parse (([nip18Line].map (fun l => l ++ ['\n'])).flatten ++ "inventory".data) =
      Parse ("inventory".data) ∧
    Parse ("inventory".data) =
      some { name := "inventory".data, args := [] } :=
  ⟨(parse_markdown_strip [nip18Line] ("inventory".data) (by decide)).1, by decide⟩

/-! ## Event-loop watermark control flow (internal/cli run, C6) -/

/-- Counterexample to C6 as stated: on the Processor-FSM refusal path and
on the duplicate path the loop `continue`s without `SetHighWaterMark`. -/
theorem event_loop_watermark_counterexample :
    dmBranchSetsWatermark fsmRefusedDM = false ∧
      dmBranchSetsWatermark duplicateDM = false :=
  ⟨rfl, rfl⟩

/-- C6 (amended) — the loop calls `setWatermark(event.created_at)` before
finishing with an event exactly when the initial FSM transition succeeded
and the dedup check reported the event as new; on an FSM refusal, a dedup
error, or a duplicate it skips the event without touching the
watermark. -/
theorem event_loop_watermark (o : DMBranchOutcomes) (oz : ZapBranchOutcomes) :
    dmBranchSetsWatermark o =
      (o.fsmDMReceived && decide (o.dedup = .fresh)) ∧
    zapBranchSetsWatermark oz =
      (oz.fsmZapReceived && decide (oz.dedup = .fresh)) := by
  constructor
  · rcases o with ⟨f, d, k, x1, x2, x3, x4, x5, x6, x7, x8, x9, x10⟩
    cases f <;> cases d <;> cases k <;>
      simp [dmBranchSetsWatermark, ite_self]
  · rcases oz with ⟨f, d, x1, x2, x3⟩
    cases f <;> cases d <;>
      simp [zapBranchSetsWatermark, ite_self]

end Eggbot
